import Mathlib

/-!
Verification development for the stt-training-data repository.

The repository contains two pipelines over plain text files:

* an Audio Splitter (src/Stt_Audio/split_audio.py and the batch variant
  src/stt_training_data/split_audio.py) that slices an audio file according to
  a timing CSV, writes one segment file per row and appends one four-line block
  per row to a segment log, and
* a Segment-Log Parser (src/Stt_Audio/generate_csv_file.py and the sorting
  variant src/stt_training_data/drupchen_training_data_format.py) that extracts
  segment records from such logs with a fixed regular expression and writes an
  aggregated manifest CSV.

Strings are modelled as `List Char`.  File-system and audio-codec effects are
out of scope (the spec delegates them to external collaborators); what is
modelled is the text each function produces and consumes, with concrete row /
folder inputs standing for the decoded CSV rows and per-folder log contents.
-/

/-! ## Character classes used by the log regular expression

The pattern in generate_csv_file.py is

  Segment (\d+)\nTime: ([\d.]+)s - ([\d.]+)s \(duration: ([\d.]+)s\)\nFilename: (.+)\nTranscription: (.+)

`\d` is modelled by `Char.isDigit` (ASCII digits; the Unicode digit
classes of Python's `re` differ only on inputs no claim exercises), `[\d.]` by
`isDigDot` and `.` by `notNL` (any character except a newline). -/

def isDigDot (c : Char) : Bool := c.isDigit || c == '.'

def notNL (c : Char) : Bool := c != '\n'

/-! ## Decimal rendering helpers

`natStr` renders a natural number in decimal, as Python's str/format does for
nonnegative integers.  It is written with explicit fuel so that it is
structurally recursive and evaluates inside the kernel. -/

def natStrAux : Nat → Nat → List Char
  | 0, _ => []
  | fuel + 1, n =>
    if n < 10 then [Nat.digitChar n]
    else natStrAux fuel (n / 10) ++ [Nat.digitChar (n % 10)]

def natStr (n : Nat) : List Char := natStrAux (n + 1) n

/-- Python's str of an int (sign followed by decimal digits). -/
def intStr (x : Int) : List Char :=
  if x < 0 then '-' :: natStr x.natAbs else natStr x.natAbs

/-- Python's f-string {n:04d}: decimal digits left-padded with zeros to
width 4. -/
def pad4 (n : Nat) : List Char :=
  List.replicate (4 - (natStr n).length) '0' ++ natStr n

/-- Zero-padding to width 2, used for the fractional part of {v:.2f}. -/
def pad2 (n : Nat) : List Char :=
  List.replicate (2 - (natStr n).length) '0' ++ natStr n

/-- Round x (in milliseconds) to centiseconds, ties to even.  This is the
ideal rounding of x/1000 to two decimal places; the source formats the float
x/1000 with {v:.2f}, whose binary representation can differ from the exact
value only in which side of a tie it lands on, which no claim depends on. -/
def roundCenti (x : Nat) : Nat :=
  let q := x / 10
  let r := x % 10
  if r < 5 then q else if 5 < r then q + 1 else if q % 2 = 0 then q else q + 1

/-- Rendering of f"{x/1000:.2f}" for a nonnegative millisecond count. -/
def fmt2n (x : Nat) : List Char :=
  natStr (roundCenti x / 100) ++ '.' :: pad2 (roundCenti x % 100)

/-- Rendering of f"{x/1000:.2f}" for an arbitrary integer millisecond count. -/
def fmt2i (x : Int) : List Char :=
  if x < 0 then '-' :: fmt2n x.natAbs else fmt2n x.natAbs

/-! ## Audio Splitter (split_audio.py, function split_audio_file)

One decoded timing row.  The integer fields are `Option Int`: `none` models a
row whose int() cast raises (the source catches any per-row exception, prints
it and continues with the next row).  `io_ok = false` models an exception
raised while slicing, exporting or logging that row, which the same handler
catches. -/

structure RawRow where
  start_time : Option Int
  end_time : Option Int
  duration : Option Int
  transcription : List Char
  io_ok : Bool
deriving DecidableEq

/-- The outputs one successful row contributes: its 4-digit sequence number,
the name of the exported segment file, and the block appended to the log. -/
structure SegOut where
  segNum : List Char
  fileName : List Char
  block : List Char
deriving DecidableEq

/-- format_time in split_audio.py: f"{start_ms}_to_{end_ms}". -/
def format_time (start_ms end_ms : Int) : List Char :=
  intStr start_ms ++ "_to_".data ++ intStr end_ms

/-- Output filename for row index i (0-based): f"{tag}_{i+1:04d}_{time_range}.wav".
In split_audio.py the tag is the literal "STT_TT_D002"; the batch variant in
stt_training_data/split_audio.py passes f"STT_TT_D{idx+1:03d}". -/
def fnameAt (tag : List Char) (i : Nat) (s e : Int) : List Char :=
  tag ++ "_".data ++ pad4 (i + 1) ++ "_".data ++ format_time s e ++ ".wav".data

/-- The 80-dash separator written after every block. -/
def dashes80 : List Char := List.replicate 80 '-'

/-- The text of one log block, grouped to mirror the literal pieces of the
parser's regular expression (the grouping of the appends is immaterial; the
character sequence equals the source's consecutive writes
"Segment {sn}\n", "Time: {f1}s - {f2}s (duration: {f3}s)\n",
"Filename: {fn}\n", "Transcription: {tr}\n", "-"*80 + "\n\n"). -/
def coreText (sn f1 f2 f3 fn tr : List Char) : List Char :=
  "Segment ".data ++ (sn ++ ("\nTime: ".data ++ (f1 ++ ("s - ".data ++
    (f2 ++ ("s (duration: ".data ++ (f3 ++ ("s)\nFilename: ".data ++
    (fn ++ ("\nTranscription: ".data ++ tr))))))))))

/-- One full block: matchable core, then newline, separator and blank line. -/
def blockAt (tag : List Char) (i : Nat) (s e d : Int) (tr : List Char) : List Char :=
  coreText (pad4 (i + 1)) (fmt2i s) (fmt2i e) (fmt2i d) (fnameAt tag i s e) tr
    ++ ("\n".data ++ (dashes80 ++ "\n\n".data))

/-- The SegOut of a successful row. -/
def mkOut (tag : List Char) (i : Nat) (s e d : Int) (tr : List Char) : SegOut :=
  ⟨pad4 (i + 1), fnameAt tag i s e, blockAt tag i s e d tr⟩

/-- Per-row processing of split_audio_file: the casts int(row[...]) on the
three time fields, then slice, export and log-append.  Returns none exactly
when the per-row try/except in the source catches an exception (a failed cast
or, via io_ok, a slicing/export/logging failure): that row contributes no
segment file and no log block. -/
def processRow (tag : List Char) (i : Nat) (r : RawRow) : Option SegOut :=
  match r.start_time, r.end_time, r.duration, r.io_ok with
  | some s, some e, some d, true => some (mkOut tag i s e d r.transcription)
  | _, _, _, _ => none

/-- The per-row loop of split_audio_file.  k is the dataframe index of the
first row of the list; indices advance on every row, also on skipped ones
(pandas iterrows keeps the positional index of a failed row). -/
def splitOuts (tag : List Char) : Nat → List RawRow → List SegOut
  | _, [] => []
  | k, r :: rs =>
    match processRow tag k r with
    | some o => o :: splitOuts tag (k + 1) rs
    | none => splitOuts tag (k + 1) rs

/-- Names of the segment files exported by one run. -/
def splitFiles (tag : List Char) (rows : List RawRow) : List (List Char) :=
  (splitOuts tag 0 rows).map (·.fileName)

/-- The fixed log header written before the row loop:
f.write("Segment Log\n"); f.write("===========\n\n"). -/
def logHeader : List Char := "Segment Log\n===========\n\n".data

/-- The full text of segments_log.txt after one run. -/
def splitLog (tag : List Char) (rows : List RawRow) : List Char :=
  logHeader ++ ((splitOuts tag 0 rows).map (·.block)).flatten

/-- The tag used by src/Stt_Audio/split_audio.py. -/
def sttTag : List Char := "STT_TT_D002".data

/-- A row all of whose casts succeed and whose I/O does not fail: exactly the
rows the per-row loop does not skip. -/
def castsOk (r : RawRow) : Bool :=
  r.start_time.isSome && r.end_time.isSome && r.duration.isSome && r.io_ok

/-- A row that is valid in the sense of the spec's data model and produces a
log block the parser can recover: casts succeed, I/O succeeds, the three time
fields are nonnegative, and the transcription is nonempty and newline-free. -/
def goodRow (r : RawRow) : Bool :=
  castsOk r
    && (r.start_time.getD 0 ≥ 0)
    && (r.end_time.getD 0 ≥ 0)
    && (r.duration.getD 0 ≥ 0)
    && (!r.transcription.isEmpty)
    && r.transcription.all notNL

/-- clean_filename in split_audio.py (identical in both variants): delete the
characters matched by [\\/*?:"<>|], then truncate to max_length. -/
def isBadChar (c : Char) : Bool :=
  c == '\\' || c == '/' || c == '*' || c == '?' || c == ':' || c == '"'
    || c == '<' || c == '>' || c == '|'

def clean_filename (text : List Char) (max_length : Nat) : List Char :=
  ((text.filter fun c => !isBadChar c).take max_length)

/-! ## Segment-Log Parser (generate_csv_file.py)

The regular expression SEGMENT_PATTERN is modelled by a deterministic matcher.
For this particular pattern maximal munch is exact: each greedy group is a
character class ( \d , [\d.] , . ) and the literal character that follows the
group in the pattern is never a member of that class, so the backtracking
search of Python's re engine never retries a shorter group. -/

/-- One tuple returned by SEGMENT_PATTERN.findall: the six capture groups. -/
structure SegTuple where
  seg : List Char
  st : List Char
  en : List Char
  dur : List Char
  fname : List Char
  trans : List Char
deriving DecidableEq

/-- Match a literal piece of the pattern, returning the remaining input. -/
def lit : List Char → List Char → Option (List Char)
  | [], s => some s
  | _ :: _, [] => none
  | p :: ps, c :: cs => if c = p then lit ps cs else none

/-- Match one-or-more characters of class p (a greedy group), returning the
captured characters and the remaining input. -/
def munch1 (p : Char → Bool) (s : List Char) : Option (List Char × List Char) :=
  if (s.takeWhile p).isEmpty then none else some (s.takeWhile p, s.dropWhile p)

/-- Attempt to match SEGMENT_PATTERN at the start of the input.  On success,
returns the six captures and the input following the match. -/
def tryMatch (s : List Char) : Option (SegTuple × List Char) :=
  (lit "Segment ".data s).bind fun s1 =>
  (munch1 Char.isDigit s1).bind fun g1 =>
  (lit "\nTime: ".data g1.2).bind fun s2 =>
  (munch1 isDigDot s2).bind fun g2 =>
  (lit "s - ".data g2.2).bind fun s3 =>
  (munch1 isDigDot s3).bind fun g3 =>
  (lit "s (duration: ".data g3.2).bind fun s4 =>
  (munch1 isDigDot s4).bind fun g4 =>
  (lit "s)\nFilename: ".data g4.2).bind fun s5 =>
  (munch1 notNL s5).bind fun g5 =>
  (lit "\nTranscription: ".data g5.2).bind fun s6 =>
  (munch1 notNL s6).map fun g6 =>
  (⟨g1.1, g2.1, g3.1, g4.1, g5.1, g6.1⟩, g6.2)

/-- SEGMENT_PATTERN.findall: scan left to right; at each position attempt a
match; on success record the captures and continue after the match, otherwise
advance one character.  The fuel argument is an upper bound on the input
length (every step strictly shrinks the input). -/
def findAllAux : Nat → List Char → List SegTuple
  | 0, _ => []
  | fuel + 1, s =>
    match tryMatch s with
    | some (t, rest) => t :: findAllAux fuel rest
    | none =>
      match s with
      | [] => []
      | _ :: cs => findAllAux fuel cs

/-- extract_segments in generate_csv_file.py: SEGMENT_PATTERN.findall. -/
def extract_segments (log_content : List Char) : List SegTuple :=
  findAllAux log_content.length log_content

/-- The CloudFront base URL constant. -/
def CLOUDFRONT_URL : List Char := "https://d38pmlk0v88drf.cloudfront.net/wav16k/".data

/-- construct_audio_url: f"{CLOUDFRONT_URL}{filename}". -/
def construct_audio_url (filename : List Char) : List Char :=
  CLOUDFRONT_URL ++ filename

/-- Python str.split("_") restricted to a single-character separator: splits
at every underscore, keeping empty pieces; the result is never empty. -/
def splitU : List Char → List (List Char)
  | [] => [[]]
  | c :: cs =>
    match splitU cs with
    | [] => [[]]
    | t :: ts => if c = '_' then [] :: t :: ts else (c :: t) :: ts

/-- Python str.strip() with no argument: remove leading and trailing
whitespace.  The ASCII whitespace characters are modelled; the extra Unicode
space characters Python also strips occur in no claim. -/
def isWS (c : Char) : Bool :=
  c == ' ' || c == '\t' || c == '\n' || c == '\r' || c == '\x0b' || c == '\x0c'

def pyStrip (s : List Char) : List Char :=
  ((s.dropWhile isWS).reverse.dropWhile isWS).reverse

/-- Python float() on the strings matched by [\d.]+ : an optional integer
part and an optional fractional part around at most one dot, at least one
digit overall.  The value is kept as an exact rational; every claim that
inspects it uses a value (3.0) that is exactly representable as a double, so
the float detour of the source cannot differ there. -/
def digitsVal (l : List Char) : Nat :=
  l.foldl (fun acc c => 10 * acc + (c.toNat - 48)) 0

def parseFloat (s : List Char) : Option ℚ :=
  if s.all Char.isDigit then
    if s.isEmpty then none else some (digitsVal s)
  else
    match s.splitOn '.' with
    | [a, b] =>
      if (a ++ b).isEmpty then none
      else if (a ++ b).all Char.isDigit then
        some ((digitsVal a : ℚ) + (digitsVal b : ℚ) / ((10 : ℚ) ^ b.length))
      else none
    | _ => none

/-- One manifest row: [filename, dept, audio_url, duration_in_seconds,
transcription.strip()]. -/
structure ManifestRow where
  file_name : List Char
  dept : List Char
  audio_url : List Char
  audio_duration_in_seconds : ℚ
  transcript : List Char
deriving DecidableEq

/-- The body of the loop in process_segments for one matched tuple:
dept = filename.split("_")[1] (IndexError when fewer than two pieces, modelled
as none), audio_url construction, float(duration) (ValueError modelled as
none), transcription.strip().  A none aborts the whole process_segments call,
as an uncaught exception does in the source. -/
def processSegment (t : SegTuple) : Option ManifestRow :=
  ((splitU t.fname).get? 1).bind fun dept =>
  (parseFloat t.dur).bind fun q =>
  some ⟨t.fname, dept, construct_audio_url t.fname, q, pyStrip t.trans⟩

/-- process_segments: the loop over all matched tuples; an exception on any
tuple propagates, so the result is all rows or a raised exception (none). -/
def process_segments (segments : List SegTuple) : Option (List ManifestRow) :=
  segments.mapM processSegment

/-- A folder as the parser sees it: none models a folder where get_log_file
raises FileNotFoundError (no file starting with "segments_log") or the read
fails; some content is the text of its log file. -/
def processFolder : Option (List Char) → List ManifestRow
  | none => []
  | some content => (process_segments (extract_segments content)).getD []

/-- The five-column manifest header written by save_to_csv (index=False: no
index column). -/
def manifestHeader : List Char :=
  "file_name,dept,audio_url,audio_duration_in_seconds,transcript".data

/-- The manifest CSV at the level this development models it: the fixed
header line plus the data rows in order.  The byte-level serialization of the
rows is delegated by the source to pandas (out of scope per the spec). -/
structure ManifestFile where
  headerLine : List Char
  rows : List ManifestRow
deriving DecidableEq

/-- save_to_csv in generate_csv_file.py: writes header plus the rows in the
order given (no sorting). -/
def save_to_csv (data : List ManifestRow) : ManifestFile :=
  ⟨manifestHeader, data⟩

/-- Ordering of manifest rows by file_name (Python compares strings
lexicographically by code point, which is the lexicographic order on the
character lists). -/
def rowLe (a b : ManifestRow) : Prop := a.file_name ≤ b.file_name

instance : DecidableRel rowLe := fun a b =>
  (inferInstance : Decidable (a.file_name ≤ b.file_name))

instance : IsTotal ManifestRow rowLe := ⟨fun a b => le_total a.file_name b.file_name⟩

instance : IsTrans ManifestRow rowLe := ⟨fun _ _ _ h h' => le_trans h h'⟩

/-- save_to_csv in drupchen_training_data_format.py: additionally
df.sort_values(by="file_name") before writing.  pandas' comparison sort is
modelled by insertion sort; the contract both satisfy is that the output is a
permutation of the input ordered ascending by file_name. -/
def save_to_csv_sorted (data : List ManifestRow) : ManifestFile :=
  ⟨manifestHeader, List.insertionSort rowLe data⟩

/-- process_audio_folders: accumulate the rows of every folder, dropping a
folder whose processing raises (the per-folder try/except), then write the
manifest unconditionally. -/
def process_audio_folders (audio_folders : List (Option (List Char))) : ManifestFile :=
  save_to_csv ((audio_folders.map processFolder).flatten)

/-- The sorting variant of process_audio_folders. -/
def process_audio_folders_sorted (audio_folders : List (Option (List Char))) : ManifestFile :=
  save_to_csv_sorted ((audio_folders.map processFolder).flatten)

/-! ## Expected outputs of a run over valid rows

These describe, row by row, what the splitter produces (expOuts) and what the
parser recovers from the produced log (expTuples); the theorems below prove
they coincide with the functions modelling the source. -/

/-- The SegOut a row with successful casts contributes at index i. -/
def expOut (tag : List Char) (i : Nat) (r : RawRow) : SegOut :=
  mkOut tag i (r.start_time.getD 0) (r.end_time.getD 0) (r.duration.getD 0) r.transcription

def expOuts (tag : List Char) : Nat → List RawRow → List SegOut
  | _, [] => []
  | k, r :: rs => expOut tag k r :: expOuts tag (k + 1) rs

/-- The capture tuple the parser recovers from the block of a good row. -/
def expTuple (tag : List Char) (i : Nat) (r : RawRow) : SegTuple :=
  ⟨pad4 (i + 1), fmt2i (r.start_time.getD 0), fmt2i (r.end_time.getD 0),
    fmt2i (r.duration.getD 0),
    fnameAt tag i (r.start_time.getD 0) (r.end_time.getD 0), r.transcription⟩

def expTuples (tag : List Char) : Nat → List RawRow → List SegTuple
  | _, [] => []
  | k, r :: rs => expTuple tag k r :: expTuples tag (k + 1) rs

/-! ## Concrete inputs used by the example theorems -/

/-- The example log block of the spec, followed by the separator line. -/
def logC3 : List Char :=
  ("Segment 0001\nTime: 0.00s - 3.00s (duration: 3.00s)\n"
    ++ "Filename: STT_TT_D001_0001_0_to_3000.wav\nTranscription: hello\n").data
    ++ dashes80 ++ "\n\n".data

/-- A timing row whose casts all succeed but whose transcription contains a
newline (reachable from a quoted multi-line CSV field). -/
def rowNL : RawRow := ⟨some 0, some 3000, some 3000, "a\nb".data, true⟩

/-- A timing row whose casts all succeed but whose transcription is empty. -/
def rowEmpty : RawRow := ⟨some 0, some 3000, some 3000, [], true⟩

/-- A well-behaved timing row used by witnesses. -/
def rowHello : RawRow := ⟨some 0, some 3000, some 3000, "hello".data, true⟩

/-- A second well-behaved timing row used by witnesses. -/
def rowWorld : RawRow := ⟨some 3000, some 7500, some 4500, "world".data, true⟩

/-- A row whose start_time cast fails, used by witnesses. -/
def rowBadCast : RawRow := ⟨none, some 3000, some 3000, "x".data, true⟩

/-! ## Basic lemmas about the rendering helpers -/

theorem isDigit_ne_nl {c : Char} (h : c.isDigit = true) : c ≠ '\n' := by
  rintro rfl
  exact absurd h (by decide)

theorem isDigDot_ne_nl {c : Char} (h : isDigDot c = true) : c ≠ '\n' := by
  rintro rfl
  exact absurd h (by decide)

theorem digitChar_isDigit {d : Nat} (h : d < 10) : (Nat.digitChar d).isDigit = true := by
  interval_cases d <;> decide

theorem natStrAux_digits {fuel n : Nat} {c : Char}
    (hc : c ∈ natStrAux fuel n) : c.isDigit = true := by
  induction fuel generalizing n with
  | zero => simp [natStrAux] at hc
  | succ fuel ih =>
    rw [natStrAux] at hc
    by_cases h : n < 10
    · rw [if_pos h] at hc
      simp only [List.mem_singleton] at hc
      subst hc
      exact digitChar_isDigit h
    · rw [if_neg h] at hc
      rcases List.mem_append.1 hc with h' | h'
      · exact ih h'
      · simp only [List.mem_singleton] at h'
        subst h'
        exact digitChar_isDigit (Nat.mod_lt _ (by omega))

theorem natStr_digits {n : Nat} {c : Char} (hc : c ∈ natStr n) : c.isDigit = true :=
  natStrAux_digits hc

theorem natStr_ne_nil (n : Nat) : natStr n ≠ [] := by
  rw [natStr, natStrAux]
  by_cases h : n < 10 <;> simp [h]

theorem pad4_digits {n : Nat} {c : Char} (hc : c ∈ pad4 n) : c.isDigit = true := by
  rcases List.mem_append.1 hc with h | h
  · rw [List.eq_of_mem_replicate h]; decide
  · exact natStr_digits h

theorem pad4_ne_nil (n : Nat) : pad4 n ≠ [] := by
  intro h
  exact natStr_ne_nil n (List.append_eq_nil.1 h).2

theorem pad2_digits {n : Nat} {c : Char} (hc : c ∈ pad2 n) : c.isDigit = true := by
  rcases List.mem_append.1 hc with h | h
  · rw [List.eq_of_mem_replicate h]; decide
  · exact natStr_digits h

theorem fmt2n_digdot {x : Nat} {c : Char} (hc : c ∈ fmt2n x) : isDigDot c = true := by
  rw [fmt2n] at hc
  rcases List.mem_append.1 hc with h | h
  · simp [isDigDot, natStr_digits h]
  · rcases List.mem_cons.1 h with h' | h'
    · subst h'; decide
    · simp [isDigDot, pad2_digits h']

theorem fmt2n_ne_nil (x : Nat) : fmt2n x ≠ [] := by
  rw [fmt2n]
  intro h
  exact natStr_ne_nil _ (List.append_eq_nil.1 h).1

theorem fmt2i_nonneg {x : Int} (h : 0 ≤ x) : fmt2i x = fmt2n x.natAbs := by
  rw [fmt2i, if_neg (by omega)]

theorem fmt2i_digdot {x : Int} (hx : 0 ≤ x) {c : Char}
    (hc : c ∈ fmt2i x) : isDigDot c = true := by
  rw [fmt2i_nonneg hx] at hc
  exact fmt2n_digdot hc

theorem fmt2i_ne_nil {x : Int} (hx : 0 ≤ x) : fmt2i x ≠ [] := by
  rw [fmt2i_nonneg hx]
  exact fmt2n_ne_nil _

theorem intStr_ne_nl {x : Int} {c : Char} (hc : c ∈ intStr x) : c ≠ '\n' := by
  rw [intStr] at hc
  by_cases h : x < 0
  · rw [if_pos h] at hc
    rcases List.mem_cons.1 hc with h' | h'
    · subst h'; decide
    · exact isDigit_ne_nl (natStr_digits h')
  · rw [if_neg h] at hc
    exact isDigit_ne_nl (natStr_digits hc)

theorem fnameAt_ne_nl {tag : List Char} (htag : ∀ c ∈ tag, c ≠ '\n')
    {i : Nat} {s e : Int} {c : Char} (hc : c ∈ fnameAt tag i s e) : c ≠ '\n' := by
  rw [fnameAt, format_time] at hc
  simp only [List.append_assoc, List.mem_append] at hc
  rcases hc with h | h | h | h | h | h | h | h
  · exact htag c h
  · exact (by decide : ∀ c ∈ "_".data, c ≠ '\n') c h
  · exact isDigit_ne_nl (pad4_digits h)
  · exact (by decide : ∀ c ∈ "_".data, c ≠ '\n') c h
  · exact intStr_ne_nl h
  · exact (by decide : ∀ c ∈ "_to_".data, c ≠ '\n') c h
  · exact intStr_ne_nl h
  · exact (by decide : ∀ c ∈ ".wav".data, c ≠ '\n') c h

theorem fnameAt_ne_nil (tag : List Char) (i : Nat) (s e : Int) :
    fnameAt tag i s e ≠ [] := by
  rw [fnameAt]
  intro h
  have := congrArg List.length h
  simp [List.length_append] at this

/-! ## Lemmas about the deterministic matcher -/

theorem lit_self (p s : List Char) : lit p (p ++ s) = some s := by
  induction p with
  | nil => rfl
  | cons c ps ih => simp [lit, ih]

theorem lit_some {p s r : List Char} (h : lit p s = some r) : s = p ++ r := by
  induction p generalizing s with
  | nil =>
    simp only [lit, Option.some.injEq] at h
    simp [h]
  | cons c ps ih =>
    match s with
    | [] => simp [lit] at h
    | a :: s' =>
      rw [lit] at h
      by_cases hac : a = c
      · rw [if_pos hac] at h
        rw [hac, List.cons_append, ih h]
      · rw [if_neg hac] at h
        exact absurd h (by simp)

theorem takeWhile_append_exact {p : Char → Bool} {a b : List Char}
    (ha : ∀ c ∈ a, p c = true) (hb : ∀ c, b.head? = some c → p c = false) :
    (a ++ b).takeWhile p = a := by
  induction a with
  | nil =>
    match b with
    | [] => rfl
    | c :: bs => simp [List.takeWhile, hb c rfl]
  | cons c as ih =>
    rw [List.cons_append, List.takeWhile_cons, if_pos (ha c (List.mem_cons_self c as))]
    rw [ih fun x hx => ha x (List.mem_cons_of_mem _ hx)]

theorem dropWhile_append_exact {p : Char → Bool} {a b : List Char}
    (ha : ∀ c ∈ a, p c = true) (hb : ∀ c, b.head? = some c → p c = false) :
    (a ++ b).dropWhile p = b := by
  induction a with
  | nil =>
    match b with
    | [] => rfl
    | c :: bs => simp [List.dropWhile, hb c rfl]
  | cons c as ih =>
    rw [List.cons_append, List.dropWhile_cons, if_pos (ha c (List.mem_cons_self c as))]
    exact ih fun x hx => ha x (List.mem_cons_of_mem _ hx)

theorem munch1_exact {p : Char → Bool} {a b : List Char} (hne : a ≠ [])
    (ha : ∀ c ∈ a, p c = true) (hb : ∀ c, b.head? = some c → p c = false) :
    munch1 p (a ++ b) = some (a, b) := by
  rw [munch1, takeWhile_append_exact ha hb, dropWhile_append_exact ha hb,
    if_neg (by simpa using hne)]

theorem munch1_some {p : Char → Bool} {s a r : List Char}
    (h : munch1 p s = some (a, r)) : s = a ++ r ∧ a ≠ [] := by
  rw [munch1] at h
  by_cases he : (s.takeWhile p).isEmpty
  · rw [if_pos he] at h
    exact absurd h (by simp)
  · rw [if_neg he] at h
    simp only [Option.some.injEq, Prod.mk.injEq] at h
    refine ⟨?_, by rw [← h.1]; simpa using he⟩
    rw [← h.1, ← h.2, List.takeWhile_append_dropWhile]

theorem head_fail_of_head {p : Char → Bool} {b : List Char} {d : Char}
    (hb : b.head? = some d) (hd : p d = false) :
    ∀ c, b.head? = some c → p c = false := by
  intro c hc
  rw [hb] at hc
  cases hc
  exact hd

/-- Matching the pattern at the start of one block core succeeds, captures the
six groups, and consumes exactly the core.  The side conditions are the exact
reason maximal munch coincides with the regex: each group is nonempty, all its
characters are in the group's class, and the first character after it is not. -/
theorem tryMatch_core {sn f1 f2 f3 fn tr rest : List Char}
    (hsn : sn ≠ []) (hsnD : ∀ c ∈ sn, c.isDigit = true)
    (hf1 : f1 ≠ []) (hf1D : ∀ c ∈ f1, isDigDot c = true)
    (hf2 : f2 ≠ []) (hf2D : ∀ c ∈ f2, isDigDot c = true)
    (hf3 : f3 ≠ []) (hf3D : ∀ c ∈ f3, isDigDot c = true)
    (hfn : fn ≠ []) (hfnD : ∀ c ∈ fn, notNL c = true)
    (htr : tr ≠ []) (htrD : ∀ c ∈ tr, notNL c = true)
    (hrest : ∀ c, rest.head? = some c → notNL c = false) :
    tryMatch (coreText sn f1 f2 f3 fn tr ++ rest) =
      some (⟨sn, f1, f2, f3, fn, tr⟩, rest) := by
  rw [coreText]
  simp only [List.append_assoc]
  rw [tryMatch, lit_self]
  simp only [Option.some_bind]
  rw [munch1_exact hsn hsnD ?hb1]
  simp only [Option.some_bind]
  rw [lit_self]
  simp only [Option.some_bind]
  rw [munch1_exact hf1 hf1D ?hb2]
  simp only [Option.some_bind]
  rw [lit_self]
  simp only [Option.some_bind]
  rw [munch1_exact hf2 hf2D ?hb3]
  simp only [Option.some_bind]
  rw [lit_self]
  simp only [Option.some_bind]
  rw [munch1_exact hf3 hf3D ?hb4]
  simp only [Option.some_bind]
  rw [lit_self]
  simp only [Option.some_bind]
  rw [munch1_exact hfn hfnD ?hb5]
  simp only [Option.some_bind]
  rw [lit_self]
  simp only [Option.some_bind]
  rw [munch1_exact htr htrD hrest]
  simp only [Option.map_some']
  case hb1 => exact head_fail_of_head rfl (by decide)
  case hb2 => exact head_fail_of_head rfl (by decide)
  case hb3 => exact head_fail_of_head rfl (by decide)
  case hb4 => exact head_fail_of_head rfl (by decide)
  case hb5 => exact head_fail_of_head rfl (by decide)

theorem length_le_of_append {a b c : List Char} (h : a = b ++ c) :
    c.length ≤ a.length := by
  subst h
  simp [List.length_append]

theorem length_lt_of_append_ne {a b c : List Char} (h : a = b ++ c) (hb : b ≠ []) :
    c.length < a.length := by
  subst h
  match b, hb with
  | x :: xs, _ => simp [List.length_append]; omega

/-- A successful match consumes at least one character. -/
theorem tryMatch_length {s rest : List Char} {t : SegTuple}
    (h : tryMatch s = some (t, rest)) : rest.length < s.length := by
  rw [tryMatch] at h
  simp only [Option.bind_eq_some, Option.map_eq_some'] at h
  obtain ⟨s1, hs1, g1, hg1, s2, hs2, g2, hg2, s3, hs3, g3, hg3, s4, hs4,
    g4, hg4, s5, hs5, g5, hg5, s6, hs6, g6, hg6, heq⟩ := h
  cases heq
  have a1 : s1.length < s.length := length_lt_of_append_ne (lit_some hs1) (by decide)
  have a2 : g1.2.length ≤ s1.length := length_le_of_append (munch1_some hg1).1
  have a3 : s2.length ≤ g1.2.length := length_le_of_append (lit_some hs2)
  have a4 : g2.2.length ≤ s2.length := length_le_of_append (munch1_some hg2).1
  have a5 : s3.length ≤ g2.2.length := length_le_of_append (lit_some hs3)
  have a6 : g3.2.length ≤ s3.length := length_le_of_append (munch1_some hg3).1
  have a7 : s4.length ≤ g3.2.length := length_le_of_append (lit_some hs4)
  have a8 : g4.2.length ≤ s4.length := length_le_of_append (munch1_some hg4).1
  have a9 : s5.length ≤ g4.2.length := length_le_of_append (lit_some hs5)
  have a10 : g5.2.length ≤ s5.length := length_le_of_append (munch1_some hg5).1
  have a11 : s6.length ≤ g5.2.length := length_le_of_append (lit_some hs6)
  have a12 : g6.2.length ≤ s6.length := length_le_of_append (munch1_some hg6).1
  omega

theorem findAllAux_nil (fuel : Nat) : findAllAux fuel [] = [] := by
  cases fuel <;> rfl

theorem findAllAux_succ (fuel : Nat) (s : List Char) :
    findAllAux (fuel + 1) s =
      match tryMatch s with
      | some (t, rest) => t :: findAllAux fuel rest
      | none =>
        match s with
        | [] => []
        | _ :: cs => findAllAux fuel cs := rfl

/-- The fuel is irrelevant as long as it bounds the input length. -/
theorem findAllAux_congr : ∀ (n m : Nat) (s : List Char),
    s.length ≤ n → s.length ≤ m → findAllAux n s = findAllAux m s := by
  intro n
  induction n with
  | zero =>
    intro m s hn _
    have : s = [] := List.eq_nil_of_length_eq_zero (by omega)
    subst this
    rw [findAllAux_nil, findAllAux_nil]
  | succ n ih =>
    intro m s hn hm
    match m, hm with
    | 0, hm =>
      have : s = [] := List.eq_nil_of_length_eq_zero (by omega)
      subst this
      rw [findAllAux_nil, findAllAux_nil]
    | m + 1, hm =>
      rw [findAllAux_succ, findAllAux_succ]
      cases htm : tryMatch s with
      | some tr =>
        have hlt : tr.2.length < s.length :=
          tryMatch_length (t := tr.1) (by rw [htm])
        simp only [htm]
        rw [ih m tr.2 (by omega) (by omega)]
      | none =>
        simp only [htm]
        cases s with
        | nil => rfl
        | cons c cs =>
          simp only [List.length_cons] at hn hm
          exact ih m cs (by omega) (by omega)

/-- Scanning step at a position where the pattern does not match. -/
theorem extract_cons_noMatch {c : Char} {cs : List Char}
    (h : tryMatch (c :: cs) = none) :
    extract_segments (c :: cs) = extract_segments cs := by
  rw [extract_segments, extract_segments]
  simp only [List.length_cons]
  rw [findAllAux_succ, h]

/-- Scanning step at a position where the pattern matches. -/
theorem extract_cons_match {s rest : List Char} {t : SegTuple}
    (h : tryMatch s = some (t, rest)) :
    extract_segments s = t :: extract_segments rest := by
  have hlt := tryMatch_length h
  rw [extract_segments, extract_segments]
  obtain ⟨n, hn⟩ : ∃ n, s.length = n + 1 := ⟨s.length - 1, by omega⟩
  rw [hn, findAllAux_succ, h]
  show t :: findAllAux n rest = t :: findAllAux rest.length rest
  rw [findAllAux_congr n rest.length rest (by omega) le_rfl]

/-- The pattern starts with the literal character S, so it cannot match at a
position holding any other character. -/
theorem tryMatch_head_ne {c : Char} {cs : List Char} (h : c ≠ 'S') :
    tryMatch (c :: cs) = none := by
  rw [tryMatch,
    show ("Segment ".data) = 'S' :: "egment ".data from rfl, lit]
  rw [if_neg h]
  rfl

/-- Text containing no capital S is skipped by the scan. -/
theorem extract_skip {junk : List Char} (h : ∀ c ∈ junk, c ≠ 'S') :
    ∀ rest : List Char, extract_segments (junk ++ rest) = extract_segments rest := by
  induction junk with
  | nil => intro rest; rfl
  | cons c cs ih =>
    intro rest
    rw [List.cons_append,
      extract_cons_noMatch (tryMatch_head_ne (h c (List.mem_cons_self c cs))),
      ih fun x hx => h x (List.mem_cons_of_mem _ hx)]

/-! ## The splitter's outputs on rows that are not skipped -/

theorem processRow_castsOk {r : RawRow} (h : castsOk r = true)
    (tag : List Char) (k : Nat) : processRow tag k r = some (expOut tag k r) := by
  obtain ⟨st, et, dt, tr, io⟩ := r
  rw [castsOk] at h
  simp only [Bool.and_eq_true, Option.isSome_iff_exists] at h
  obtain ⟨⟨⟨⟨s, hs⟩, e, he⟩, d, hd⟩, hio⟩ := h
  subst hs he hd hio
  rfl

theorem splitOuts_eq_expOuts (tag : List Char) :
    ∀ (rows : List RawRow) (k : Nat), (∀ r ∈ rows, castsOk r = true) →
      splitOuts tag k rows = expOuts tag k rows := by
  intro rows
  induction rows with
  | nil => intro k _; rfl
  | cons r rs ih =>
    intro k hall
    rw [splitOuts, processRow_castsOk (hall r (List.mem_cons_self r rs)) tag k,
      expOuts, ih (k + 1) fun x hx => hall x (List.mem_cons_of_mem _ hx)]

theorem goodRow_spec {r : RawRow} (h : goodRow r = true) :
    ∃ s e d : Int, r.start_time = some s ∧ r.end_time = some e ∧
      r.duration = some d ∧ 0 ≤ s ∧ 0 ≤ e ∧ 0 ≤ d ∧ r.io_ok = true ∧
      r.transcription ≠ [] ∧ ∀ c ∈ r.transcription, notNL c = true := by
  rw [goodRow, castsOk] at h
  simp only [Bool.and_eq_true, Option.isSome_iff_exists, decide_eq_true_eq,
    Bool.not_eq_true', List.all_eq_true, ge_iff_le] at h
  obtain ⟨⟨⟨⟨⟨⟨⟨⟨⟨s, hs⟩, e, he⟩, d, hd⟩, hio⟩, hs0⟩, he0⟩, hd0⟩, hemp⟩, hall⟩ := h
  rw [hs, Option.getD_some] at hs0
  rw [he, Option.getD_some] at he0
  rw [hd, Option.getD_some] at hd0
  refine ⟨s, e, d, hs, he, hd, hs0, he0, hd0, hio, ?_, hall⟩
  intro hnil
  rw [hnil] at hemp
  exact absurd hemp (by decide)

theorem goodRow_castsOk {r : RawRow} (h : goodRow r = true) : castsOk r = true := by
  rw [goodRow] at h
  simp only [Bool.and_eq_true] at h
  exact h.1.1.1.1.1

theorem ne_nl_notNL {c : Char} (h : c ≠ '\n') : notNL c = true := by
  simpa [notNL] using h

theorem junk_tail_ne_S :
    ∀ c ∈ ("\n".data ++ (dashes80 ++ "\n\n".data) : List Char), c ≠ 'S' := by
  intro c hc
  rcases List.mem_append.1 hc with h | h
  · exact (by decide : ∀ x ∈ "\n".data, x ≠ 'S') c h
  · rcases List.mem_append.1 h with h' | h'
    · rw [List.eq_of_mem_replicate h']
      decide
    · exact (by decide : ∀ x ∈ "\n\n".data, x ≠ 'S') c h'

/-- Scanning the concatenation of the blocks of good rows recovers exactly one
capture tuple per row, in order. -/
theorem extract_expBlocks {tag : List Char} (htag : ∀ c ∈ tag, c ≠ '\n') :
    ∀ (rows : List RawRow) (k : Nat), (∀ r ∈ rows, goodRow r = true) →
      extract_segments (((expOuts tag k rows).map (·.block)).flatten)
        = expTuples tag k rows := by
  intro rows
  induction rows with
  | nil => intro k _; rfl
  | cons r rs ih =>
    intro k hall
    obtain ⟨s, e, d, hs, he, hd, hs0, he0, hd0, hio, htrne, htrnl⟩ :=
      goodRow_spec (hall r (List.mem_cons_self r rs))
    rw [expOuts, List.map_cons, List.flatten_cons]
    have hblock : (expOut tag k r).block = blockAt tag k s e d r.transcription := by
      rw [expOut, hs, he, hd]
      rfl
    rw [hblock, blockAt, List.append_assoc]
    have hrest : ∀ c : Char,
        ((("\n".data ++ (dashes80 ++ "\n\n".data)) ++
          ((expOuts tag (k + 1) rs).map (·.block)).flatten).head?) = some c →
          notNL c = false :=
      head_fail_of_head rfl (by decide)
    rw [extract_cons_match (tryMatch_core
      (pad4_ne_nil (k + 1)) (fun c hc => pad4_digits hc)
      (fmt2i_ne_nil hs0) (fun c hc => fmt2i_digdot hs0 hc)
      (fmt2i_ne_nil he0) (fun c hc => fmt2i_digdot he0 hc)
      (fmt2i_ne_nil hd0) (fun c hc => fmt2i_digdot hd0 hc)
      (fnameAt_ne_nil tag k s e) (fun c hc => ne_nl_notNL (fnameAt_ne_nl htag hc))
      htrne htrnl hrest)]
    rw [extract_skip junk_tail_ne_S]
    rw [ih (k + 1) fun x hx => hall x (List.mem_cons_of_mem _ hx)]
    show _ = expTuple tag k r :: expTuples tag (k + 1) rs
    rw [expTuple, hs, he, hd]
    rfl

/-- Parsing the whole produced log file: the header is skipped (the pattern
fails on "Segment L..." since L is not a digit) and the blocks are recovered
one tuple per good row. -/
theorem extract_splitLog {tag : List Char} (htag : ∀ c ∈ tag, c ≠ '\n')
    (rows : List RawRow) (hall : ∀ r ∈ rows, goodRow r = true) :
    extract_segments (splitLog tag rows) = expTuples tag 0 rows := by
  rw [splitLog, splitOuts_eq_expOuts tag rows 0 fun r hr => goodRow_castsOk (hall r hr)]
  rw [show logHeader = 'S' :: "egment Log\n===========\n\n".data from rfl,
    List.cons_append]
  have hnm : tryMatch ('S' :: ("egment Log\n===========\n\n".data ++
      (((expOuts tag 0 rows).map (·.block)).flatten))) = none := rfl
  rw [extract_cons_noMatch hnm,
    extract_skip (by decide : ∀ c ∈ "egment Log\n===========\n\n".data, c ≠ 'S'),
    extract_expBlocks htag rows 0 hall]

theorem expTuples_length (tag : List Char) :
    ∀ (rows : List RawRow) (k : Nat), (expTuples tag k rows).length = rows.length := by
  intro rows
  induction rows with
  | nil => intro k; rfl
  | cons r rs ih => intro k; rw [expTuples, List.length_cons, List.length_cons, ih]

theorem expOuts_length (tag : List Char) :
    ∀ (rows : List RawRow) (k : Nat), (expOuts tag k rows).length = rows.length := by
  intro rows
  induction rows with
  | nil => intro k; rfl
  | cons r rs ih => intro k; rw [expOuts, List.length_cons, List.length_cons, ih]

theorem expTuples_map_fname (tag : List Char) :
    ∀ (rows : List RawRow) (k : Nat),
      (expTuples tag k rows).map (·.fname) = (expOuts tag k rows).map (·.fileName) := by
  intro rows
  induction rows with
  | nil => intro k; rfl
  | cons r rs ih =>
    intro k
    rw [expTuples, expOuts, List.map_cons, List.map_cons, ih]
    rfl

theorem expTuples_map_trans (tag : List Char) :
    ∀ (rows : List RawRow) (k : Nat),
      (expTuples tag k rows).map (·.trans) = rows.map (·.transcription) := by
  intro rows
  induction rows with
  | nil => intro k; rfl
  | cons r rs ih =>
    intro k
    rw [expTuples, List.map_cons, List.map_cons, ih]
    rfl

theorem expOuts_map_segNum (tag : List Char) :
    ∀ (rows : List RawRow) (k : Nat),
      (expOuts tag k rows).map (·.segNum)
        = (List.range rows.length).map fun i => pad4 (k + i + 1) := by
  intro rows
  induction rows with
  | nil => intro k; rfl
  | cons r rs ih =>
    intro k
    rw [expOuts, List.map_cons, List.length_cons, List.range_succ_eq_map,
      List.map_cons, List.map_map, ih (k + 1)]
    refine congrArg₂ _ (by rfl) ?_
    refine List.map_congr_left fun i _ => ?_
    simp only [Function.comp_apply]
    congr 1
    omega

/-! ## Shared helper lemmas for the claim theorems -/

theorem splitOuts_cons (tag : List Char) (k : Nat) (r : RawRow) (rs : List RawRow) :
    splitOuts tag k (r :: rs) =
      match processRow tag k r with
      | some o => o :: splitOuts tag (k + 1) rs
      | none => splitOuts tag (k + 1) rs := rfl

theorem splitOuts_append (tag : List Char) :
    ∀ (l1 l2 : List RawRow) (k : Nat),
      splitOuts tag k (l1 ++ l2)
        = splitOuts tag k l1 ++ splitOuts tag (k + l1.length) l2 := by
  intro l1
  induction l1 with
  | nil => intro l2 k; simp [splitOuts]
  | cons r rs ih =>
    intro l2 k
    rw [List.cons_append, splitOuts_cons, splitOuts_cons]
    simp only [List.length_cons]
    have hk : k + (rs.length + 1) = k + 1 + rs.length := by omega
    rw [hk]
    cases hpr : processRow tag k r with
    | some o => simp only [hpr]; rw [ih l2 (k + 1), List.cons_append]
    | none => simp only [hpr]; rw [ih l2 (k + 1)]

theorem flatten_nil_of_all_nil {fs : List (Option (List Char))}
    (h : ∀ f ∈ fs, processFolder f = []) :
    (fs.map processFolder).flatten = ([] : List ManifestRow) := by
  induction fs with
  | nil => rfl
  | cons a as ih =>
    rw [List.map_cons, List.flatten_cons, h a (List.mem_cons_self a as),
      ih fun x hx => h x (List.mem_cons_of_mem _ hx), List.nil_append]

/-! ## Claim theorems -/

set_option maxRecDepth 1000000 in
/-- C1, counterexample to the claim as stated: the row rowNL is processed by
the splitter (all casts succeed, nonnegative times), yet the transcription the
parser recovers from the produced log, even after trimming, differs from the
original one ("a" against "a\nb": the dot of the pattern stops at the
newline); and for the processed row rowEmpty (empty transcription) the parser
recovers zero records where one block was written. -/
theorem roundtrip_counterexample :
    castsOk rowNL = true ∧ castsOk rowEmpty = true ∧
    (extract_segments (splitLog sttTag [rowNL])).map (fun t => pyStrip t.trans)
      ≠ [rowNL].map (·.transcription) ∧
    (extract_segments (splitLog sttTag [rowEmpty])).length
      ≠ ([rowEmpty] : List RawRow).length := by
  decide

/-- C1 (amended): for rows that are valid in the sense of the spec's data
model and whose transcription is nonempty and newline-free, parsing the log
the splitter wrote recovers exactly one record per row, with the written
filenames and with transcriptions exactly equal to the originals (hence equal
after trimming). -/
theorem roundtrip_good_rows (tag : List Char) (htag : ∀ c ∈ tag, c ≠ '\n')
    (rows : List RawRow) (hall : ∀ r ∈ rows, goodRow r = true) :
    (extract_segments (splitLog tag rows)).length = rows.length
    ∧ (extract_segments (splitLog tag rows)).map (·.fname) = splitFiles tag rows
    ∧ (extract_segments (splitLog tag rows)).map (·.trans)
        = rows.map (·.transcription) := by
  have hx := extract_splitLog htag rows hall
  have hc : ∀ r ∈ rows, castsOk r = true := fun r hr => goodRow_castsOk (hall r hr)
  refine ⟨?_, ?_, ?_⟩
  · rw [hx, expTuples_length]
  · rw [hx, expTuples_map_fname, splitFiles, splitOuts_eq_expOuts tag rows 0 hc]
  · rw [hx, expTuples_map_trans]

/-- C1, witness for the amended round-trip theorem on a two-row run. -/
theorem roundtrip_good_rows_witness :
    (extract_segments (splitLog sttTag [rowHello, rowWorld])).length = 2
    ∧ (extract_segments (splitLog sttTag [rowHello, rowWorld])).map (·.fname)
        = splitFiles sttTag [rowHello, rowWorld]
    ∧ (extract_segments (splitLog sttTag [rowHello, rowWorld])).map (·.trans)
        = [rowHello, rowWorld].map (·.transcription) :=
  roundtrip_good_rows sttTag (by decide) [rowHello, rowWorld] (by decide)

/-- C2: on a run whose rows all process successfully, the splitter produces
exactly one segment file and one log block per row, and the sequence numbers
are the zero-padded 1..N in CSV row order. -/
theorem splitter_counts (tag : List Char) (rows : List RawRow)
    (hall : ∀ r ∈ rows, castsOk r = true) :
    (splitFiles tag rows).length = rows.length
    ∧ (splitOuts tag 0 rows).length = rows.length
    ∧ (splitOuts tag 0 rows).map (·.segNum)
        = (List.range rows.length).map fun i => pad4 (i + 1) := by
  have h := splitOuts_eq_expOuts tag rows 0 hall
  refine ⟨?_, ?_, ?_⟩
  · rw [splitFiles, List.length_map, h, expOuts_length]
  · rw [h, expOuts_length]
  · rw [h, expOuts_map_segNum]
    exact List.map_congr_left fun i _ => by rw [Nat.zero_add]

/-- C2, witness on a two-row run. -/
theorem splitter_counts_witness :
    (splitFiles sttTag [rowHello, rowWorld]).length = 2
    ∧ (splitOuts sttTag 0 [rowHello, rowWorld]).length = 2
    ∧ (splitOuts sttTag 0 [rowHello, rowWorld]).map (·.segNum)
        = (List.range 2).map fun i => pad4 (i + 1) :=
  splitter_counts sttTag [rowHello, rowWorld] (by decide)

set_option maxRecDepth 100000 in
/-- C3: parsing the spec's example log block followed by the separator yields
exactly one manifest row with the stated filename, dept TT (underscore token
at index 1), audio_url equal to the base URL concatenated with the filename,
duration 3.0 seconds and transcript "hello". -/
theorem example_block_parses :
    process_segments (extract_segments logC3) =
      some [⟨"STT_TT_D001_0001_0_to_3000.wav".data, "TT".data,
        CLOUDFRONT_URL ++ "STT_TT_D001_0001_0_to_3000.wav".data, 3,
        "hello".data⟩] := by
  rw [(by decide : extract_segments logC3 =
    [⟨"0001".data, "0.00".data, "3.00".data, "3.00".data,
      "STT_TT_D001_0001_0_to_3000.wav".data, "hello".data⟩])]
  have hdept : (splitU ("STT_TT_D001_0001_0_to_3000.wav".data)).get? 1
      = some ("TT".data) := by decide
  have hq : parseFloat ("3.00".data) = some 3 := by
    rw [show parseFloat ("3.00".data)
        = some ((digitsVal ['3'] : ℚ) + (digitsVal ['0', '0'] : ℚ) / (10 : ℚ) ^ (2 : ℕ))
      from rfl]
    rw [show digitsVal ['3'] = 3 from rfl, show digitsVal ['0', '0'] = 0 from rfl]
    norm_num
  simp only [process_segments, List.mapM_cons, List.mapM_nil, processSegment]
  rw [hdept]
  simp only [Option.some_bind]
  rw [hq]
  rfl

/-- C4: the non-sorting save_to_csv writes the manifest rows exactly in the
order the data was extracted (hence the same order on every re-run over
unchanged folders), while the sorting variant writes a permutation of the data
ordered ascending by file_name, whatever the input order was. -/
theorem manifest_ordering (data : List ManifestRow) :
    (save_to_csv data).rows = data
    ∧ List.Sorted rowLe (save_to_csv_sorted data).rows
    ∧ (save_to_csv_sorted data).rows.Perm data :=
  ⟨rfl, List.sorted_insertionSort rowLe data, List.perm_insertionSort rowLe data⟩

/-- C5: a folder whose log cannot be located or processed contributes nothing,
and the resulting manifest is exactly the one of the run without that folder. -/
theorem folder_fault_isolation (pre post : List (Option (List Char)))
    (bad : Option (List Char)) (h : processFolder bad = []) :
    process_audio_folders (pre ++ bad :: post)
      = process_audio_folders (pre ++ post) := by
  rw [process_audio_folders, process_audio_folders, List.map_append, List.map_cons,
    List.flatten_append, List.flatten_cons, h, List.nil_append, ← List.flatten_append,
    ← List.map_append]

/-- C5, witness: a missing-log folder in the middle of a batch changes
nothing. -/
theorem folder_fault_isolation_witness :
    process_audio_folders [some logC3, none, some logC3]
      = process_audio_folders [some logC3, some logC3] :=
  folder_fault_isolation [some logC3] [some logC3] none (by decide)

/-- C6: an exception while processing one timing row (a failed cast, or a
slicing/export/logging failure) skips exactly that row: the run's outputs are
those of the earlier rows followed by those of the later rows, the later rows
keeping their original dataframe indices. -/
theorem row_fault_isolation (tag : List Char) (pre : List RawRow) (bad : RawRow)
    (post : List RawRow) (h : processRow tag pre.length bad = none) :
    splitOuts tag 0 (pre ++ bad :: post)
      = splitOuts tag 0 pre ++ splitOuts tag (pre.length + 1) post := by
  rw [splitOuts_append tag pre (bad :: post) 0]
  simp only [Nat.zero_add]
  rw [splitOuts_cons]
  simp only [h]

/-- C6, witness: a failing middle row leaves the neighbouring rows' outputs
untouched. -/
theorem row_fault_isolation_witness :
    splitOuts sttTag 0 [rowHello, rowBadCast, rowWorld]
      = splitOuts sttTag 0 [rowHello] ++ splitOuts sttTag 2 [rowWorld] :=
  row_fault_isolation sttTag [rowHello] rowBadCast [rowWorld] (by decide)

/-- C7: department extraction fails (an IndexError aborting the block's
processing) exactly when the filename has fewer than two underscore-separated
pieces; with at least two pieces the piece at index 1 is extracted and is the
dept of any row the block produces. -/
theorem dept_extraction_behavior (t : SegTuple) :
    ((splitU t.fname).length < 2 → processSegment t = none)
    ∧ (2 ≤ (splitU t.fname).length →
        ∃ dp, (splitU t.fname).get? 1 = some dp ∧
          ∀ m : ManifestRow, processSegment t = some m → m.dept = dp) := by
  constructor
  · intro hlen
    have hn : (splitU t.fname).get? 1 = none := by
      rw [List.get?_eq_none]
      omega
    rw [processSegment, hn]
    rfl
  · intro hlen
    obtain ⟨dp, hdp⟩ : ∃ dp, (splitU t.fname).get? 1 = some dp := by
      cases hg : (splitU t.fname).get? 1 with
      | none => rw [List.get?_eq_none] at hg; omega
      | some dp => exact ⟨dp, rfl⟩
    refine ⟨dp, hdp, ?_⟩
    intro m hm
    rw [processSegment, hdp] at hm
    simp only [Option.some_bind] at hm
    cases hq : parseFloat t.dur with
    | none => rw [hq] at hm; exact absurd hm (by simp)
    | some q =>
      rw [hq] at hm
      simp only [Option.some_bind, Option.some.injEq] at hm
      rw [← hm]

/-- C7, witness: a filename with a single piece makes the block fail; one
with at least two pieces yields the piece at index 1 as dept. -/
theorem dept_extraction_behavior_witness :
    processSegment ⟨"0001".data, "0.00".data, "3.00".data, "3.00".data,
        "abc.wav".data, "x".data⟩ = none
    ∧ ∃ dp, (splitU ("STT_TT.wav".data)).get? 1 = some dp ∧
        ∀ m : ManifestRow,
          processSegment ⟨"0001".data, "0.00".data, "3.00".data, "3.00".data,
            "STT_TT.wav".data, "x".data⟩ = some m → m.dept = dp :=
  ⟨(dept_extraction_behavior ⟨"0001".data, "0.00".data, "3.00".data, "3.00".data,
      "abc.wav".data, "x".data⟩).1 (by decide),
    (dept_extraction_behavior ⟨"0001".data, "0.00".data, "3.00".data, "3.00".data,
      "STT_TT.wav".data, "x".data⟩).2 (by decide)⟩

/-- C8: the manifest write is unconditional: the written file always carries
the fixed five-column header (index=False adds no index column) and one row
per aggregated segment; when every folder fails or yields nothing, the file is
header-only. -/
theorem manifest_write_unconditional (folders : List (Option (List Char))) :
    (process_audio_folders folders).headerLine = manifestHeader
    ∧ (process_audio_folders folders).rows = (folders.map processFolder).flatten
    ∧ ((∀ f ∈ folders, processFolder f = []) →
        process_audio_folders folders = ⟨manifestHeader, []⟩) := by
  refine ⟨rfl, rfl, fun h => ?_⟩
  rw [process_audio_folders, save_to_csv, flatten_nil_of_all_nil h]

/-- C8, witness: a batch where the only folder has no log file still produces
the header-only manifest. -/
theorem manifest_write_unconditional_witness :
    process_audio_folders [none] = ⟨manifestHeader, []⟩ :=
  (manifest_write_unconditional [none]).2.2 (by decide)

/-- C9: the filename sanitizer never keeps any of the nine disallowed
characters and never exceeds the requested maximum length. -/
theorem clean_filename_spec (text : List Char) (max_length : Nat) :
    (∀ c ∈ clean_filename text max_length, isBadChar c = false)
    ∧ (clean_filename text max_length).length ≤ max_length := by
  constructor
  · intro c hc
    have hmem : c ∈ text.filter fun c => !isBadChar c :=
      List.take_subset _ _ hc
    have h := List.of_mem_filter hmem
    simpa using h
  · rw [clean_filename, List.length_take]
    exact Nat.min_le_left _ _

/-- C10: the manifest output of process_segments depends only on the duration,
filename and transcription captures: two capture lists agreeing on those three
fields produce identical results, whatever their sequence-number, start-time
and end-time captures are. -/
theorem unused_captures_noninterference (ts us : List SegTuple)
    (h : List.Forall₂
      (fun a b => a.dur = b.dur ∧ a.fname = b.fname ∧ a.trans = b.trans) ts us) :
    process_segments ts = process_segments us := by
  induction h with
  | nil => rfl
  | @cons a b as bs hab htail ih =>
    have hseg : processSegment a = processSegment b := by
      obtain ⟨h4, h5, h6⟩ := hab
      rw [processSegment, processSegment, h4, h5, h6]
    simp only [process_segments, List.mapM_cons] at ih ⊢
    rw [hseg, ih]

/-- C10, witness: two single-block lists differing only in sequence number and
start/end captures yield the same manifest rows. -/
theorem unused_captures_noninterference_witness :
    process_segments [⟨"0001".data, "0.00".data, "3.00".data, "3.00".data,
        "A_B.wav".data, "x".data⟩]
      = process_segments [⟨"9999".data, "5.00".data, "8.00".data, "3.00".data,
        "A_B.wav".data, "x".data⟩] :=
  unused_captures_noninterference _ _
    (List.Forall₂.cons ⟨rfl, rfl, rfl⟩ List.Forall₂.nil)
